import Mathlib

/-!
Verification development for the AntlerBot dispatcher core.

The Python sources under `src/core/` are shallowly embedded below:

* `scheduled_tasks.py` — persistent scheduled tasks (`_unique_name`,
  `create_task`, `cancel_task`, `_on_trigger`); side effects of
  `_on_trigger` are reified as an explicit `Effect` trace.
* `scheduler.py` — the priority dispatcher (`_batch`, the drain pass of
  `_process_loop`); the `asyncio.PriorityQueue` pop order is modelled by
  sorting on the `(priority, counter)` key.
* `agent.py` — conversation state: `_safe_for_summary`, `summarize_node`,
  `summarize_all_node`, the graph run of `_invoke` with its token-usage
  accounting, the output segmenter of `_invoke`, and a small transition
  system for the `_lock` discipline of `_invoke`.

LLM calls are modelled as oracles: response lists consumed in order, or
plain value parameters.  Python `datetime.now()` values enter as string
parameters.  Python dict truthiness (`if task_id:`) is modelled explicitly.
-/

/-! ## Scheduled tasks (`scheduled_tasks.py`) -/

/-- A task source, the Python dict `{"type": ..., "id": ...}`. -/
structure TaskSource where
  type : String
  id : String
deriving DecidableEq, Repr

/-- A persisted scheduled-task record, the dict built in `create_task`
(`scheduled_tasks.py:96-108`).  `source` is an `Option` because
`message_handler.get_current_source()` can return `None`. -/
structure STask where
  task_id : String
  type : String
  name : String
  content : String
  trigger : String
  source : Option TaskSource
  run_count : Nat
  last_run : Option String
  max_runs : Option Nat
  end_date : Option String
  original_prompt : Option String
deriving DecidableEq, Repr

/-- Python truthiness of an optional string (`None` and `""` are falsy). -/
def truthyStr : Option String → Bool
  | some s => s ≠ ""
  | none => false

/-- Python truthiness of an optional int (`None` and `0` are falsy). -/
def truthyNat : Option Nat → Bool
  | some n => n ≠ 0
  | none => false

/-- `_unique_name` (`scheduled_tasks.py:44-51`): return `name` if unused,
else the first `name(i)`, `i = 1, 2, …`, not in use.  The Python `while`
loop is bounded here by `tasks.length + 1` candidates, which always
suffices because at most `tasks.length` names are taken. -/
def unique_name (name : String) (tasks : List STask) : String :=
  let existing := tasks.map (·.name)
  if name ∉ existing then name
  else
    match (List.range (tasks.length + 1)).find?
        (fun i => (name ++ "(" ++ toString (i + 1) ++ ")") ∉ existing) with
    | some i => name ++ "(" ++ toString (i + 1) ++ ")"
    | none => name

/-- Result of the embedded `create_task`: the returned dict (as an
association list), the task list passed to `_save_tasks`, and the stored
record itself. -/
structure CreateTaskResult where
  result : List (String × String)
  saved : List STask
  task : STask
deriving Repr

/-- `create_task` (`scheduled_tasks.py:73-112`).  `mhCurrentSource` stands
for `message_handler.get_current_source()`, which the code reads when
`source` is omitted; `newId` stands for `str(uuid.uuid4())`.  The returned
dict is `{"name": unique}` (line 112). -/
def create_task (type name content trigger : String)
    (source : Option TaskSource) (max_runs : Option Nat)
    (end_date original_prompt : Option String)
    (mhCurrentSource : Option TaskSource)
    (tasks : List STask) (newId : String) : CreateTaskResult :=
  let src := match source with
    | some s => some s
    | none => mhCurrentSource
  let unique := unique_name name tasks
  let task : STask :=
    { task_id := newId, type := type, name := unique, content := content,
      trigger := trigger, source := src, run_count := 0, last_run := none,
      max_runs := max_runs, end_date := end_date,
      original_prompt := original_prompt }
  { result := [("name", unique)], saved := tasks ++ [task], task := task }

/-- Result of the embedded `cancel_task`: the returned dict and the task
list passed to `_save_tasks` (`none` when nothing is written to disk). -/
structure CancelTaskResult where
  result : List (String × String)
  saved : Option (List STask)
deriving DecidableEq, Repr

/-- `cancel_task` (`scheduled_tasks.py:115-132`).  `if task_id:` and the
`name` guard follow Python truthiness. -/
def cancel_task (tasks : List STask)
    (task_id name : Option String) : CancelTaskResult :=
  let t1 : Option STask :=
    if truthyStr task_id then tasks.find? (fun t => t.task_id = task_id.getD "")
    else none
  let target : Option STask :=
    match t1 with
    | some t => some t
    | none =>
      if truthyStr name then tasks.find? (fun t => t.name = name.getD "")
      else none
  match target with
  | none => { result := [("error", "Task not found")], saved := none }
  | some t =>
    { result := [("cancelled", t.name)],
      saved := some (tasks.filter (fun x => x.task_id ≠ t.task_id)) }

/-- Observable side effects of the `_on_trigger` fire path.  `agentInvoke`
is the inline `await agent.invoke(...)` call of `scheduled_tasks.py:177`;
`enqueueDispatch` is the dispatcher enqueue (`scheduler.enqueue`) that the
spec describes — the embedded code never emits it. -/
inductive Effect
  | saveTasks (tasks : List STask)
  | removeJob (id : String)
  | agentInvoke (text : String)
  | sendReply (source : Option TaskSource) (text : String)
  | enqueueDispatch (priority : Nat) (sourceKey : String) (text : String)
  | rescheduleWorkflow (taskId : String)
deriving DecidableEq, Repr

/-- Is an effect a dispatcher enqueue? -/
def Effect.isEnqueue : Effect → Bool
  | .enqueueDispatch _ _ _ => true
  | _ => false

/-- Is an effect an inline agent invocation? -/
def Effect.isAgentInvoke : Effect → Bool
  | .agentInvoke _ => true
  | _ => false

/-- The system-voice header composed in `_on_trigger`
(`scheduled_tasks.py:172-175`), with the run count already incremented. -/
def triggerHeader (t : STask) : String :=
  if t.type = "repeat" then
    "<scheduled_task>" ++ t.name ++ "-第" ++ toString t.run_count ++ "次</scheduled_task>"
  else
    "<scheduled_task>" ++ t.name ++ "</scheduled_task>"

/-- `_on_trigger` (`scheduled_tasks.py:146-183`) as an effect trace.
`nowIso` and `todayIso` stand for `now.isoformat()` and
`now.date().isoformat()`; `agentReply` is the oracle value of the inline
`agent.invoke` call.  Expiry mirrors lines 156-160, including Python
truthiness of `max_runs` and `end_date` and the string comparison
`now.date().isoformat() > task["end_date"]`. -/
def on_trigger (tasks : List STask) (task_id : String)
    (nowIso todayIso : String) (agentReply : String) : List Effect :=
  match tasks.find? (fun t => t.task_id = task_id) with
  | none => []
  | some t0 =>
    let t := { t0 with run_count := t0.run_count + 1, last_run := some nowIso }
    let expired : Bool :=
      t.type = "once"
        ∨ (truthyNat t.max_runs ∧ t.run_count ≥ t.max_runs.getD 0)
        ∨ (truthyStr t.end_date ∧ t.end_date.getD "" < todayIso)
    let tasks' :=
      if expired then tasks.filter (fun x => x.task_id ≠ task_id)
      else tasks.map (fun x => if x.task_id = task_id then t else x)
    let removeFx := if expired then [Effect.removeJob task_id] else []
    [Effect.saveTasks tasks'] ++ removeFx
      ++ [Effect.agentInvoke (triggerHeader t ++ "\n" ++ t.content),
          Effect.sendReply t.source agentReply]
      ++ (if t.type = "complex_repeat" ∧ expired = false
              ∧ tasks'.any (fun x => x.task_id = task_id) then
            [Effect.rescheduleWorkflow task_id]
          else [])

/-! ## Dispatcher (`scheduler.py`) -/

/-- A queue entry `(priority, counter, source_key, msg, reply_fn,
parsed_message)` (`scheduler.py:108`).  The reply callback is abstracted
to an identifier; `blocks` are the `content_blocks` of the parsed
message (empty when the payload is `None`). -/
structure QItem where
  pri : Nat
  seq : Nat
  src : String
  msg : String
  reply : Nat
  blocks : List String
deriving DecidableEq, Repr

/-- Pop order of the `asyncio.PriorityQueue`: lexicographic on
`(priority, counter)`.  Counters are unique, so the comparison never
reaches the later tuple components. -/
def qLe (a b : QItem) : Prop :=
  a.pri < b.pri ∨ (a.pri = b.pri ∧ a.seq ≤ b.seq)

instance : DecidableRel qLe := fun a b => by
  unfold qLe; infer_instance

instance : IsTotal QItem qLe where
  total a b := by
    rcases Nat.lt_trichotomy a.pri b.pri with h | h | h
    · exact Or.inl (Or.inl h)
    · rcases Nat.le_total a.seq b.seq with h' | h'
      · exact Or.inl (Or.inr ⟨h, h'⟩)
      · exact Or.inr (Or.inr ⟨h.symm, h'⟩)
    · exact Or.inr (Or.inl h)

instance : IsTrans QItem qLe where
  trans a b c hab hbc := by
    rcases hab with h1 | ⟨e1, s1⟩
    · rcases hbc with h2 | ⟨e2, _⟩
      · exact Or.inl (h1.trans h2)
      · exact Or.inl (e2 ▸ h1)
    · rcases hbc with h2 | ⟨e2, s2⟩
      · exact Or.inl (e1 ▸ h2)
      · exact Or.inr ⟨e1.trans e2, s1.trans s2⟩

/-- The sequence in which `_process_loop` receives the drained items: the
queue content sorted by `(priority, counter)` (`scheduler.py:127-129`). -/
def drainOrder (queued : List QItem) : List QItem :=
  List.insertionSort qLe queued

/-- First-seen order of source keys, as built by the `order` list of
`_batch` (`scheduler.py:31-41`). -/
def batchSources (items : List QItem) : List String :=
  items.foldl (fun acc it => if it.src ∈ acc then acc else acc ++ [it.src]) []

/-- One group of `_batch`: `(source_key, msgs, reply_fns, parsed_msgs)`,
with `parsed_msgs` reduced to the content blocks used by the worker. -/
structure BatchGroup where
  src : String
  msgs : List String
  replies : List Nat
  blockss : List (List String)
deriving DecidableEq, Repr

/-- The group of `_batch` for one source key: the key's items in list
order, projected to messages, reply callbacks and content blocks. -/
def mkGroup (items : List QItem) (s : String) : BatchGroup :=
  let mine := items.filter (fun it => it.src = s)
  { src := s, msgs := mine.map (·.msg), replies := mine.map (·.reply),
    blockss := mine.map (·.blocks) }

/-- `_batch` (`scheduler.py:31-41`): group by `source_key`, first-seen
order across groups, item order within each group.  The per-key lists the
Python code accumulates by appending equal the filtered sublists. -/
def batch (items : List QItem) : List BatchGroup :=
  (batchSources items).map (mkGroup items)

/-- One LLM invocation performed by the drain pass of `_process_loop`
(`scheduler.py:131-145`): the combined text `"\n".join(msgs)`, the merged
content blocks, and the reply callback used for every emitted segment
(`reply_fns[-1]`). -/
structure Invocation where
  source : String
  text : String
  blocks : List String
  replyTarget : Option Nat
deriving DecidableEq, Repr

/-- One drain pass of `_process_loop` (`scheduler.py:121-145`): drain the
whole queue in pop order, batch by source, one invocation per group. -/
def drainOnce (queued : List QItem) : List Invocation :=
  (batch (drainOrder queued)).map fun g =>
    { source := g.src, text := String.intercalate "\n" g.msgs,
      blocks := g.blockss.flatten, replyTarget := g.replies.getLast? }

/-- Display texts passed to the LLM in turns originating from source `S`,
in delivery order, over a whole run.  A run is the list of drain passes,
each with the items that were in the queue at that pass, listed in
enqueue order.  Per pass, `S` contributes the `msgs` of its batch group
(these appear joined by `"\n"` inside the invocation text). -/
def deliveredFor (S : String) (run : List (List QItem)) : List String :=
  (run.map fun d =>
    ((batch (drainOrder d)).filter (fun g => g.src = S)).flatMap (·.msgs)).flatten

/-- Display texts of source `S` in enqueue order over a whole run. -/
def enqueuedFor (S : String) (run : List (List QItem)) : List String :=
  (run.flatten.filter (fun it => it.src = S)).map (·.msg)

/-! ## Conversation state (`agent.py`) -/

/-- Token-usage metadata of an assistant message
(`usage_metadata{input_tokens, output_tokens, total_tokens}`). -/
structure Usage where
  input : Nat
  output : Nat
  total : Nat
deriving DecidableEq, Repr

/-- A conversation message (LangChain `HumanMessage`, `AIMessage`,
`SystemMessage`, `ToolMessage`).  `toolCalls` holds the tool-call ids of
an assistant message; `usage` its optional `usage_metadata`. -/
inductive Msg
  | human (text : String)
  | ai (text : String) (toolCalls : List String) (usage : Option Usage)
  | system (text : String)
  | tool (text : String)
deriving DecidableEq, Repr

/-- Is the message a `HumanMessage` or `SystemMessage` (the anchor test of
`summarize_node`, `agent.py:169`)? -/
def Msg.isAnchor : Msg → Bool
  | .human _ => true
  | .system _ => true
  | _ => false

/-- Is the message a `ToolMessage`? -/
def Msg.isTool : Msg → Bool
  | .tool _ => true
  | _ => false

/-- `_safe_for_summary` (`agent.py:156-164`): pop all trailing
`ToolMessage`s, then pop one trailing `AIMessage` if it carries tool
calls. -/
def safe_for_summary (msgs : List Msg) : List Msg :=
  let r := msgs.reverse.dropWhile Msg.isTool
  match r with
  | Msg.ai _ (_ :: _) _ :: rest => rest.reverse
  | _ => r.reverse

/-- Index of the last `HumanMessage`/`SystemMessage` in the list, the
`last_human` computation of `summarize_node` (`agent.py:169`). -/
def lastAnchorIdx (msgs : List Msg) : Option Nat :=
  msgs.enum.foldl (fun acc p => if p.2.isAnchor then some p.1 else acc) none

/-- The `<context-summary>` wrapper of `summarize_node` /
`summarize_all_node` (`agent.py:188`, `agent.py:206`). -/
def wrapSummary (now text : String) : String :=
  "<context-summary summary_time=" ++ now ++ ">\n" ++ text ++ "\n</context-summary>"

/-- `summarize_node` (`agent.py:166-190`).  `summaryText`/`summaryUsage`
are the oracle content and `usage_metadata` of the inner `_llm.invoke`
summary call; `now` is the timestamp string; `prevUsage` the module
global `_current_token_usage`.  Returns the new `_history` (`none` when
the node is a no-op and `_history` is left untouched) and the new
`_current_token_usage`. -/
def summarize_node (msgs : List Msg) (summaryText : String)
    (summaryUsage : Option Usage) (now : String) (prevUsage : Int) :
    Option (List Msg) × Int :=
  let split : List Msg × List Msg :=
    match lastAnchorIdx msgs with
    | some i =>
      if 0 < i then (safe_for_summary (msgs.take i), msgs.drop i)
      else (safe_for_summary msgs, [])
    | none => (safe_for_summary msgs, [])
  let toSummarize := split.1
  let lastTurn := split.2
  if toSummarize = [] then (none, prevUsage)
  else
    let usage' : Int :=
      match summaryUsage with
      | some u => (u.output : Int) + prevUsage - (u.input : Int)
      | none => prevUsage
    (some (Msg.system (wrapSummary now summaryText) :: lastTurn), usage')

/-- `summarize_all_node` (`agent.py:192-208`): summarize everything and
keep no tail.  The summary LLM call is unconditional; its input is
`_safe_for_summary` of the state messages and only reaches the oracle, so
the messages argument does not appear in the result.  Returns the new
`_history` and the new `_current_token_usage`. -/
def summarize_all_node (_msgs : List Msg) (summaryText : String)
    (summaryUsage : Option Usage) (now : String) (prevUsage : Int) :
    List Msg × Int :=
  let usage' : Int :=
    match summaryUsage with
    | some u => (u.output : Int) + prevUsage - (u.input : Int)
    | none => prevUsage
  ([Msg.system (wrapSummary now summaryText)], usage')

/-- One oracle response of the chat model inside the `llm` graph node. -/
structure LlmResp where
  text : String
  toolCalls : List String
  usage : Option Usage
deriving DecidableEq, Repr

/-- `(meta or \x7b\x7d).get("input_tokens") or count_tokens_approximately(...)`
(`agent.py:224`): a missing record and a zero count both fall back to the
approximation. -/
def inputOrApprox (u : Option Usage) (approx : Nat) : Nat :=
  match u with
  | some v => if v.input = 0 then approx else v.input
  | none => approx

/-- `(meta or \x7b\x7d).get("total_tokens") or count_tokens_approximately(...)`
(`agent.py:337`): same falsy fallback for the total. -/
def totalOrApprox (u : Option Usage) (approx : Nat) : Nat :=
  match u with
  | some v => if v.total = 0 then approx else v.total
  | none => approx

/-- The invocation reason routed on by the graph (`agent.py:89`). -/
inductive Reason
  | user_message
  | scheduled_task
  | complex_reschedule
  | session_timeout
deriving DecidableEq, Repr

/-- Oracles of one `_invoke` run: the chat responses consumed by
successive `llm` node executions, the tool results produced by each
`tools` node execution, the summary response, the timestamp, and the
token approximation `count_tokens_approximately`. -/
structure InvokeOracle where
  resps : List LlmResp
  toolOuts : List (List String)
  summaryText : String
  summaryUsage : Option Usage
  now : String
  approx : List Msg → Nat

/-- State threaded through the `generate → tools → generate` loop. -/
structure LoopState where
  msgs : List Msg
  resps : List LlmResp
  toolOuts : List (List String)

/-- The `llm → (tools | summarize | finalize)` loop of the graph
(`agent.py:142-149`, `agent.py:220-228`, `agent.py:236-250`), driven by
the response oracle.  Returns the final `_history` (the pre-invocation
history survives a summarize no-op) and `_current_token_usage` after the
graph, or `none` when the oracle runs out (the model's stand-in for a
transport error).  `fuel` bounds the tool loop. -/
def graphLoop (limit : Nat) (oracle : InvokeOracle) (preHistory : List Msg)
    (prevUsage : Int) : Nat → LoopState → Option (List Msg × Int)
  | 0, _ => none
  | fuel + 1, st =>
    match st.resps with
    | [] => none
    | r :: rs =>
      let msgs' := st.msgs ++ [Msg.ai r.text r.toolCalls r.usage]
      if r.toolCalls ≠ [] then
        match st.toolOuts with
        | [] => none
        | ts :: tss =>
          graphLoop limit oracle preHistory prevUsage fuel
            { msgs := msgs' ++ ts.map Msg.tool, resps := rs, toolOuts := tss }
      else
        if inputOrApprox r.usage (oracle.approx msgs') > limit then
          let s := summarize_node msgs' oracle.summaryText oracle.summaryUsage
            oracle.now prevUsage
          some (s.1.getD preHistory, s.2)
        else
          some (msgs', prevUsage)

/-- `_invoke` (`agent.py:259-337`) at the level of history and token
accounting.  Routing follows `route_by_reason` (`agent.py:240-245`):
`session_timeout → summarize_all`, `complex_reschedule → utility` (which
touches neither `_history` nor the usage), both other reasons enter the
`llm` loop on `_history + [HumanMessage(message)]`.  After the graph,
for `user_message`/`scheduled_task` only, the usage is overwritten with
the last assistant message's `total_tokens` (`agent.py:333-337`). -/
def agent_invoke (reason : Reason) (limit : Nat) (oracle : InvokeOracle)
    (preHistory : List Msg) (message : String) (prevUsage : Int)
    (fuel : Nat) : Option (List Msg × Int) :=
  match reason with
  | .session_timeout =>
    some (summarize_all_node (safe_for_summary preHistory) oracle.summaryText
      oracle.summaryUsage oracle.now prevUsage)
  | .complex_reschedule => some (preHistory, prevUsage)
  | _ =>
    let initial := preHistory ++ [Msg.human message]
    match graphLoop limit oracle preHistory prevUsage fuel
        { msgs := initial, resps := oracle.resps, toolOuts := oracle.toolOuts } with
    | none => none
    | some (hist, usage1) =>
      match hist.reverse.find? (fun m => match m with
          | Msg.ai _ _ _ => true | _ => false) with
      | some (Msg.ai _ _ u) =>
        some (hist, (totalOrApprox u (oracle.approx hist) : Int))
      | _ => some (hist, usage1)

/-! ## Single-flight lock discipline of `_invoke` (`agent.py:267`)

A small transition system for N concurrent callers of `_invoke` with
reason `user_message`.  Each caller's life is: `waiting` (blocked on
`async with _lock`), `running` (holding the lock, having read
`initial = _history + [HumanMessage(message)]`, `agent.py:277`), and
`finished` (after `finalize_node` wrote `_history` and the lock was
released).  Histories are abstracted to lists of message texts; the i-th
caller's user turn is `msg i` and its assistant response `resp i`. -/

/-- Status of one concurrent `_invoke` caller. -/
inductive CallerStat
  | waiting
  | running (snapshot : List String)
  | finished
deriving DecidableEq, Repr

/-- Shared state of the agent module: `_lock`, `_history`, and the status
of each concurrent caller. -/
structure LockState where
  lock : Bool
  hist : List String
  callers : List CallerStat
deriving DecidableEq, Repr

/-- One scheduler step.  `acquire i` is caller `i` passing
`async with _lock` and reading `initial` (`agent.py:267-277`); it is only
enabled when the lock is free.  `finish i` is `finalize_node` replacing
`_history` with the graph's final message list (`agent.py:151-154`) and
the lock being released. -/
inductive AgentStep (msg resp : Nat → String) : LockState → LockState → Prop
  | acquire (s : LockState) (i : Nat)
      (h : s.callers[i]? = some .waiting) (hl : s.lock = false) :
      AgentStep msg resp s
        { lock := true, hist := s.hist,
          callers := s.callers.set i (.running (s.hist ++ [msg i])) }
  | finish (s : LockState) (i : Nat) (snap : List String)
      (h : s.callers[i]? = some (.running snap)) :
      AgentStep msg resp s
        { lock := false, hist := snap ++ [resp i],
          callers := s.callers.set i .finished }

/-- Reachability under `AgentStep`. -/
inductive AgentReach (msg resp : Nat → String) : LockState → LockState → Prop
  | refl (s : LockState) : AgentReach msg resp s s
  | tail {s t u : LockState} : AgentReach msg resp s t →
      AgentStep msg resp t u → AgentReach msg resp s u

/-- Initial state for `n` concurrent callers over history `h0`. -/
def initLockState (h0 : List String) (n : Nat) : LockState :=
  { lock := false, hist := h0, callers := List.replicate n .waiting }

/-! ## Output segmenter of `_invoke` (`agent.py:279-331`) -/

/-- Python `str.strip()` whitespace (ASCII part). -/
def pyWS (c : Char) : Bool :=
  c = ' ' ∨ c = '\t' ∨ c = '\n' ∨ c = '\r' ∨ c.toNat = 11 ∨ c.toNat = 12

/-- Python `str.strip()`. -/
def pyStrip (l : List Char) : List Char :=
  ((l.dropWhile pyWS).reverse.dropWhile pyWS).reverse

/-- Python `str.find`: index of the first occurrence of `pat`, `none` for
`-1`. -/
def findSub (pat : List Char) : List Char → Option Nat
  | [] => if pat.isPrefixOf ([] : List Char) then some 0 else none
  | c :: t =>
    if pat.isPrefixOf (c :: t) then some 0
    else (findSub pat t).map (· + 1)

/-- Fuel-driven scanner behind `stripTags`; the fuel only bounds the
recursion depth (each step consumes at least one character, so
`l.length + 1` is always enough) and keeps the definition reducible by
the kernel. -/
def stripTagsF : Nat → List Char → List Char
  | 0, l => l
  | _ + 1, [] => []
  | fuel + 1, c :: rest =>
    if c = '<' then
      match findSub ['>'] rest with
      | some j =>
        if 0 < j then stripTagsF fuel (rest.drop (j + 1))
        else c :: stripTagsF fuel rest
      | none => c :: stripTagsF fuel rest
    else c :: stripTagsF fuel rest

/-- `re.sub(r·<[^>]+>·, '', text)` (`agent.py:280`): repeatedly drop the
leftmost maximal `<...>` region.  At a `<`, the regex matches up to the
first following `>` provided at least one character lies between; an
immediate `>` or a missing `>` leaves the `<` in place and scanning
resumes after it. -/
def stripTags (l : List Char) : List Char :=
  stripTagsF (l.length + 1) l

/-- `_emit` (`agent.py:279-281`): strip tags, trim, drop when empty. -/
def emitSeg (raw : List Char) : Option String :=
  if pyStrip (stripTags raw) = [] then none
  else some (String.mk (pyStrip (stripTags raw)))

/-- The literal opening tag `<no-split>`. -/
def noSplitOpen : List Char := "<no-split>".toList

/-- The literal closing tag `</no-split>`. -/
def noSplitClose : List Char := "</no-split>".toList

/-- Fuel-driven core of the drain loop; each successful step consumes at
least one buffered character, so `buf.length + 1` fuel always reaches the
stuck state.  The fuel keeps the definition structurally recursive and
kernel-reducible. -/
def drainSegF : Nat → Bool → List Char → (Bool × List Char) × List String
  | 0, m, buf => ((m, buf), [])
  | fuel + 1, false, buf =>
    match findSub ['\n'] buf, findSub noSplitOpen buf with
    | none, none => ((false, buf), [])
    | some nl, none =>
      let r := drainSegF fuel false (buf.drop (nl + 1))
      (r.1, (emitSeg (buf.take nl)).toList ++ r.2)
    | none, some ns =>
      let r := drainSegF fuel true (buf.drop (ns + noSplitOpen.length))
      (r.1, ((buf.take ns).splitOn '\n').filterMap emitSeg ++ r.2)
    | some nl, some ns =>
      if nl < ns then
        let r := drainSegF fuel false (buf.drop (nl + 1))
        (r.1, (emitSeg (buf.take nl)).toList ++ r.2)
      else
        let r := drainSegF fuel true (buf.drop (ns + noSplitOpen.length))
        (r.1, ((buf.take ns).splitOn '\n').filterMap emitSeg ++ r.2)
  | fuel + 1, true, buf =>
    match findSub noSplitClose buf with
    | none => ((true, buf), [])
    | some e =>
      let r := drainSegF fuel false (buf.drop (e + noSplitClose.length))
      (r.1, (emitSeg (buf.take e)).toList ++ r.2)

/-- The inner `while True` of the segmenter (`agent.py:295-321`): drain
the buffer until no further segment boundary is visible.  The first
component of the result is the stuck `(in_no_split, buffer)` state, the
second the segments yielded on the way.  In default mode the earlier of
the next newline and the next `<no-split>` wins; in no-split mode
everything up to `</no-split>` is emitted as one segment. -/
def drainSeg (m : Bool) (buf : List Char) : (Bool × List Char) × List String :=
  drainSegF (buf.length + 1) m buf

/-- Feeding one stream chunk: `buffer += chunk` followed by the drain
loop (`agent.py:294-321`). -/
def feedChunk (s : Bool × List Char) (chunk : List Char) :
    (Bool × List Char) × List String :=
  drainSeg s.1 (s.2 ++ chunk)

/-- End-of-stream flush (`agent.py:323-331`). -/
def flushState (s : Bool × List Char) : List String :=
  if s.1 then (emitSeg s.2).toList
  else (s.2.splitOn '\n').filterMap emitSeg

/-- Feeding a list of chunks in order, accumulating yielded segments. -/
def feedAll : (Bool × List Char) → List (List Char) → (Bool × List Char) × List String
  | s, [] => (s, [])
  | s, c :: cs =>
    let r1 := feedChunk s c
    let r2 := feedAll r1.1 cs
    (r2.1, r1.2 ++ r2.2)

/-- The whole segmenter on a chunked stream: feed every chunk, then
flush. -/
def segmentStream (chunks : List (List Char)) : List String :=
  let r := feedAll (false, []) chunks
  r.2 ++ flushState r.1

/-- State and cumulative output after the prefix of length `n` of stream
`S` has been fed as a single chunk. -/
def segPrefix (S : List Char) (n : Nat) : (Bool × List Char) × List String :=
  drainSeg false (S.take n)

/-- Chunking-independence certificate for a concrete stream `S`: feeding
the slice `[n, n+m)` from the prefix state of `n` reaches the prefix
state of `n+m` and emits exactly the new segments.  This bounded check
is evaluated per stream. -/
def segCompatB (S : List Char) : Bool :=
  (List.range (S.length + 1)).all fun n =>
    (List.range (S.length + 1 - n)).all fun m =>
      decide (feedChunk (segPrefix S n).1 ((S.drop n).take m) =
          ((segPrefix S (n + m)).1,
            (segPrefix S (n + m)).2.drop (segPrefix S n).2.length))
      && decide ((segPrefix S n).2 ++
            (segPrefix S (n + m)).2.drop (segPrefix S n).2.length =
          (segPrefix S (n + m)).2)

/-- The stream of the no-split segmentation scenario. -/
def streamNoSplit : List Char := "A\nB<no-split>C\nD</no-split>E\n".toList

/-- The stream of the tag-stripping scenario. -/
def streamTagStrip : List Char := "hello <face name=\"x\" /> world\n".toList

/-- Concrete once-task used to evaluate the fire path. -/
def exampleOnceTask : STask :=
  { task_id := "tid-1", type := "once", name := "提醒", content := "内容",
    trigger := "2026-03-01T10:00:00", source := some { type := "group", id := "1" },
    run_count := 0, last_run := none, max_runs := none, end_date := none,
    original_prompt := none }

/-! ## Theorems

Helper lemmas come first, then one theorem per claim (with witnesses and
counterexamples where required). -/

/-- Any segment produced by the drain loop is the output of `_emit` on
some raw text. -/
theorem drainSegF_mem_emit :
    ∀ (fuel : Nat) (m : Bool) (buf : List Char) (s : String),
      s ∈ (drainSegF fuel m buf).2 → ∃ raw, emitSeg raw = some s := by
  intro fuel
  induction fuel with
  | zero => intro m buf s h; simp [drainSegF] at h
  | succ fuel ih =>
    intro m buf s h
    cases m with
    | false =>
      simp only [drainSegF] at h
      split at h
      · simp at h
      · rcases List.mem_append.mp h with h' | h'
        · rcases Option.mem_toList.mp h' with h''
          exact ⟨_, h''⟩
        · exact ih _ _ _ h'
      · rcases List.mem_append.mp h with h' | h'
        · rcases List.mem_filterMap.mp h' with ⟨raw, _, hr⟩
          exact ⟨raw, hr⟩
        · exact ih _ _ _ h'
      · split at h
        · rcases List.mem_append.mp h with h' | h'
          · rcases Option.mem_toList.mp h' with h''
            exact ⟨_, h''⟩
          · exact ih _ _ _ h'
        · rcases List.mem_append.mp h with h' | h'
          · rcases List.mem_filterMap.mp h' with ⟨raw, _, hr⟩
            exact ⟨raw, hr⟩
          · exact ih _ _ _ h'
    | true =>
      simp only [drainSegF] at h
      split at h
      · simp at h
      · rcases List.mem_append.mp h with h' | h'
        · rcases Option.mem_toList.mp h' with h''
          exact ⟨_, h''⟩
        · exact ih _ _ _ h'

/-- Any segment produced by the end-of-stream flush is an `_emit`
output. -/
theorem flushState_mem_emit (s : Bool × List Char) (x : String)
    (h : x ∈ flushState s) : ∃ raw, emitSeg raw = some x := by
  unfold flushState at h
  split at h
  · exact ⟨s.2, Option.mem_toList.mp h⟩
  · rcases List.mem_filterMap.mp h with ⟨raw, _, hr⟩
    exact ⟨raw, hr⟩

/-- Any segment produced by feeding chunks is an `_emit` output. -/
theorem feedAll_mem_emit :
    ∀ (chunks : List (List Char)) (s0 : Bool × List Char) (x : String),
      x ∈ (feedAll s0 chunks).2 → ∃ raw, emitSeg raw = some x := by
  intro chunks
  induction chunks with
  | nil => intro s0 x h; simp [feedAll] at h
  | cons c cs ih =>
    intro s0 x h
    simp only [feedAll] at h
    rcases List.mem_append.mp h with h' | h'
    · exact drainSegF_mem_emit _ _ _ _ h'
    · exact ih _ _ h'

/-- Any segment produced by the chunked segmenter is an `_emit` output. -/
theorem segmentStream_mem_emit (chunks : List (List Char)) (x : String)
    (h : x ∈ segmentStream chunks) : ∃ raw, emitSeg raw = some x := by
  unfold segmentStream at h
  rcases List.mem_append.mp h with h' | h'
  · exact feedAll_mem_emit _ _ _ h'
  · exact flushState_mem_emit _ _ h'

/-- An `_emit` output is the trimmed, tag-stripped raw text and is never
empty. -/
theorem emitSeg_eq {raw : List Char} {s : String} (h : emitSeg raw = some s) :
    s = String.mk (pyStrip (stripTags raw)) ∧ s ≠ "" := by
  unfold emitSeg at h
  split at h
  · cases h
  · rename_i hne
    cases h
    refine ⟨rfl, ?_⟩
    intro hcon
    apply hne
    have : (String.mk (pyStrip (stripTags raw))).data = ("" : String).data := by
      rw [hcon]
    simpa using this

/-- Unfolding of a successful `segCompatB` check. -/
theorem segCompatB_spec {S : List Char} (hS : segCompatB S = true) :
    ∀ n m, n + m ≤ S.length →
      feedChunk (segPrefix S n).1 ((S.drop n).take m) =
          ((segPrefix S (n + m)).1,
            (segPrefix S (n + m)).2.drop (segPrefix S n).2.length)
        ∧ (segPrefix S n).2 ++
            (segPrefix S (n + m)).2.drop (segPrefix S n).2.length =
          (segPrefix S (n + m)).2 := by
  intro n m hnm
  simp only [segCompatB, List.all_eq_true, List.mem_range, Bool.and_eq_true,
    decide_eq_true_eq] at hS
  exact hS n (by omega) m (by omega)

/-- Feeding any chunking of the suffix `S.drop n` from the prefix state
of `n` reaches the full-stream state and emits exactly the remaining
segments. -/
theorem feedAll_of_chunking {S : List Char} (hS : segCompatB S = true) :
    ∀ (cs : List (List Char)) (n : Nat), n ≤ S.length →
      cs.flatten = S.drop n →
      feedAll (segPrefix S n).1 cs =
        ((segPrefix S S.length).1,
          (segPrefix S S.length).2.drop (segPrefix S n).2.length) := by
  intro cs
  induction cs with
  | nil =>
    intro n hn h
    have hlen : S.length ≤ n := List.drop_eq_nil_iff.mp h.symm
    have hn' : n = S.length := le_antisymm hn hlen
    subst hn'
    simp [feedAll, List.drop_length]
  | cons c cs ih =>
    intro n hn h
    simp only [List.flatten_cons] at h
    have hlen : c.length + cs.flatten.length = S.length - n := by
      have := congrArg List.length h
      simpa using this
    have hm : c.length ≤ S.length - n := by omega
    have hc : (S.drop n).take c.length = c := by
      rw [← h]; exact List.take_left c cs.flatten
    have hcs : cs.flatten = S.drop (n + c.length) := by
      calc cs.flatten = (c ++ cs.flatten).drop c.length :=
            (List.drop_left c cs.flatten).symm
        _ = (S.drop n).drop c.length := by rw [h]
        _ = S.drop (n + c.length) := List.drop_drop c.length n S
    obtain ⟨hfeed, hpre⟩ := segCompatB_spec hS n c.length (by omega)
    have ih' := ih (n + c.length) (by omega) hcs
    have h2 := (segCompatB_spec hS (n + c.length)
      (S.length - (n + c.length)) (by omega)).2
    have hL : n + c.length + (S.length - (n + c.length)) = S.length := by omega
    rw [hL] at h2
    have h3 := (segCompatB_spec hS n (S.length - n) (by omega)).2
    have hL' : n + (S.length - n) = S.length := by omega
    rw [hL'] at h3
    rw [hc] at hfeed
    have key : (segPrefix S n).2 ++
        ((segPrefix S (n + c.length)).2.drop (segPrefix S n).2.length ++
          (segPrefix S S.length).2.drop (segPrefix S (n + c.length)).2.length) =
        (segPrefix S n).2 ++
          (segPrefix S S.length).2.drop (segPrefix S n).2.length := by
      rw [← List.append_assoc, hpre, h2, h3]
    simp only [feedAll, hfeed, ih', Prod.mk.injEq]
    exact ⟨trivial, List.append_cancel_left key⟩

/-- Any chunking of a certified stream yields the single-chunk
segmentation. -/
theorem segmentStream_of_chunking {S : List Char} (hS : segCompatB S = true)
    (cs : List (List Char)) (h : cs.flatten = S) :
    segmentStream cs =
      (segPrefix S S.length).2 ++ flushState (segPrefix S S.length).1 := by
  have h0 : segPrefix S 0 = ((false, []), []) := rfl
  have := feedAll_of_chunking hS cs 0 (Nat.zero_le _) (by simpa using h)
  rw [h0] at this
  simp only [List.length_nil, List.drop_zero] at this
  unfold segmentStream
  rw [this]

set_option maxRecDepth 100000 in
/-- C7: The output segmenter splits the streamed response on newlines,
except that a region between the literal tags `<no-split>` and
`</no-split>` is buffered and emitted as one segment with its internal
newlines preserved; for any chunking of the stream
`"A\nB<no-split>C\nD</no-split>E\n"`, the emitted segments are exactly
`"A"`, `"B"`, `"C\nD"`, `"E"` in that order. -/
theorem segmenter_no_split_chunking (cs : List (List Char))
    (h : cs.flatten = streamNoSplit) :
    segmentStream cs = ["A", "B", "C\nD", "E"] := by
  have hS : segCompatB streamNoSplit = true := by decide
  rw [segmentStream_of_chunking hS cs h]
  decide

set_option maxRecDepth 100000 in
/-- Witness for C7: a three-chunk splitting of the stream, cut inside
both tags. -/
theorem segmenter_no_split_chunking_witness :
    segmentStream
        ["A\nB<no-".toList, "split>C\nD</no-spl".toList, "it>E\n".toList] =
      ["A", "B", "C\nD", "E"] :=
  segmenter_no_split_chunking
    ["A\nB<no-".toList, "split>C\nD</no-spl".toList, "it>E\n".toList]
    (by decide)

set_option maxRecDepth 100000 in
/-- C8: every segment the segmenter emits is the `_emit` image — XML-ish
tags removed by `re.sub` and whitespace trimmed — of its raw text, and
segments that become empty are dropped (never emitted); the stream
`"hello <face name=\"x\" /> world\n"` yields exactly the single segment
`"hello  world"` under any chunking. -/
theorem segmenter_tag_stripping :
    (∀ (cs : List (List Char)) (s : String), s ∈ segmentStream cs →
        s ≠ "" ∧ ∃ raw, s = String.mk (pyStrip (stripTags raw)))
    ∧ ∀ cs : List (List Char), cs.flatten = streamTagStrip →
        segmentStream cs = ["hello  world"] := by
  constructor
  · intro cs s hs
    rcases segmentStream_mem_emit cs s hs with ⟨raw, hr⟩
    rcases emitSeg_eq hr with ⟨h1, h2⟩
    exact ⟨h2, raw, h1⟩
  · intro cs h
    have hS : segCompatB streamTagStrip = true := by decide
    rw [segmentStream_of_chunking hS cs h]
    decide

set_option maxRecDepth 100000 in
/-- Witness for C8: the single-chunk stream, with the membership
hypothesis discharged on the emitted segment. -/
theorem segmenter_tag_stripping_witness :
    ("hello  world" ≠ "" ∧
      ∃ raw, "hello  world" = String.mk (pyStrip (stripTags raw)))
    ∧ segmentStream [streamTagStrip] = ["hello  world"] :=
  ⟨segmenter_tag_stripping.1 [streamTagStrip] "hello  world" (by decide),
   segmenter_tag_stripping.2 [streamTagStrip] (by decide)⟩

/-- C1 (evaluation at the failing input): firing the stored once-task
persists the updated store first, but then the composed header plus
content goes to an inline `agent.invoke` call followed by a direct
`_send_reply`; no effect of the trace is a dispatcher enqueue, for any
reply the agent returns. -/
theorem on_trigger_invokes_inline :
    on_trigger [exampleOnceTask] "tid-1" "2026-03-01T10:00:01" "2026-03-01"
        "回复" =
      [Effect.saveTasks [], Effect.removeJob "tid-1",
        Effect.agentInvoke "<scheduled_task>提醒</scheduled_task>\n内容",
        Effect.sendReply (some { type := "group", id := "1" }) "回复"]
    ∧ (on_trigger [exampleOnceTask] "tid-1" "2026-03-01T10:00:01" "2026-03-01"
        "回复").all (fun e => !e.isEnqueue) = true := by
  decide

/-- C9 (evaluation at the failing input): `create_task` with `source`
omitted returns a dict holding only the deduplicated `name` — no
`task_id` — and stores the `message_handler` current source (here
`None`), not the dispatcher's. -/
theorem create_task_returns_name_only :
    (create_task "once" "默认源" "c" "2026-03-01T10:00:00" none none none
        none none [] "uuid-1").result = [("name", "默认源")]
    ∧ (create_task "once" "默认源" "c" "2026-03-01T10:00:00" none none none
        none none [] "uuid-1").result.lookup "task_id" = none
    ∧ (create_task "once" "默认源" "c" "2026-03-01T10:00:00" none none none
        none none [] "uuid-1").task.source = none := by
  decide

/-- C10: when no stored task matches the given `task_id` or `name` —
including both omitted — `cancel_task` returns the `Task not found`
error and never writes the store. -/
theorem cancel_task_not_found (tasks : List STask)
    (task_id name : Option String)
    (hid : ∀ t ∈ tasks, task_id ≠ some t.task_id)
    (hname : ∀ t ∈ tasks, name ≠ some t.name) :
    cancel_task tasks task_id name =
      { result := [("error", "Task not found")], saved := none } := by
  unfold cancel_task
  have h1 : (if truthyStr task_id then
      tasks.find? (fun t => t.task_id = task_id.getD "") else none) = none := by
    split
    · rename_i ht
      cases task_id with
      | none => simp [truthyStr] at ht
      | some s =>
        apply List.find?_eq_none.mpr
        intro t htm
        simp only [Option.getD_some, decide_eq_true_eq]
        intro he
        exact hid t htm (by rw [he])
    · rfl
  have h2 : (if truthyStr name then
      tasks.find? (fun t => t.name = name.getD "") else none) = none := by
    split
    · rename_i ht
      cases name with
      | none => simp [truthyStr] at ht
      | some s =>
        apply List.find?_eq_none.mpr
        intro t htm
        simp only [Option.getD_some, decide_eq_true_eq]
        intro he
        exact hname t htm (by rw [he])
    · rfl
  simp only [h1, h2]

/-- Witness for C10: a store with one task, a `task_id` omitted and a
`name` matching nothing. -/
theorem cancel_task_not_found_witness :
    cancel_task [exampleOnceTask] none (some "不存在") =
      { result := [("error", "Task not found")], saved := none } :=
  cancel_task_not_found [exampleOnceTask] none (some "不存在")
    (by decide) (by decide)

/-- C5 (counterexample): on `[Human "hi", AI "yo"]` the last
Human/System anchor sits at index 0, so the claimed head
`msgs[..anchor]` strips to empty and the claim predicts a no-op; the
code instead summarizes the whole list and replaces the history with
the summary note alone, dropping the human turn. -/
theorem summarize_node_anchor_zero_cex :
    lastAnchorIdx [Msg.human "hi", Msg.ai "yo" [] none] = some 0
    ∧ safe_for_summary (([Msg.human "hi", Msg.ai "yo" [] none]).take 0) = []
    ∧ (summarize_node [Msg.human "hi", Msg.ai "yo" [] none] "S" none "T" 0).1 =
        some [Msg.system (wrapSummary "T" "S")] := by
  decide

/-- C5 (amended): when the anchor exists at a positive index `i`, the
node is a no-op iff `safe(msgs[..i])` is empty and otherwise rewrites
the history to the summary note followed by `msgs[i..]` verbatim; when
the anchor is at index 0 or absent, the whole stripped list is
summarized, the node is a no-op iff it is empty, and otherwise the new
history is the summary note alone (no tail). -/
theorem summarize_node_split (msgs : List Msg) (sText : String)
    (sUsage : Option Usage) (now : String) (prev : Int) :
    (∀ i, lastAnchorIdx msgs = some i → 0 < i →
      (summarize_node msgs sText sUsage now prev).1 =
        (if safe_for_summary (msgs.take i) = [] then none
         else some (Msg.system (wrapSummary now sText) :: msgs.drop i)))
    ∧ ((lastAnchorIdx msgs = some 0 ∨ lastAnchorIdx msgs = none) →
      (summarize_node msgs sText sUsage now prev).1 =
        (if safe_for_summary msgs = [] then none
         else some [Msg.system (wrapSummary now sText)])) := by
  constructor
  · intro i hi hpos
    unfold summarize_node
    rw [hi]
    by_cases hempty : safe_for_summary (msgs.take i) = [] <;>
      simp [hpos, hempty]
  · intro hcase
    unfold summarize_node
    by_cases hempty : safe_for_summary msgs = [] <;>
      rcases hcase with h | h <;> rw [h] <;> simp [hempty]

/-- Witness for C5 (amended): a positive anchor with a non-empty head
rewrites to summary plus preserved tail. -/
theorem summarize_node_split_witness :
    (summarize_node
        [Msg.human "h0", Msg.ai "a0" [] none, Msg.human "h1",
          Msg.ai "a1" [] none] "S" none "T" 0).1 =
      some [Msg.system (wrapSummary "T" "S"), Msg.human "h1",
        Msg.ai "a1" [] none] := by
  have h := (summarize_node_split
    [Msg.human "h0", Msg.ai "a0" [] none, Msg.human "h1", Msg.ai "a1" [] none]
    "S" none "T" 0).1 2 (by decide) (by decide)
  rw [h]
  decide

/-- Inductive invariant of the `_invoke` lock discipline: a free lock
means nobody is mid-invocation, at most one caller is mid-invocation,
and a mid-invocation caller's snapshot is the shared history plus its
own user turn. -/
def LockInv (msg : Nat → String) (s : LockState) : Prop :=
  (s.lock = false → ∀ (i : Nat) (si : List String),
      s.callers[i]? ≠ some (CallerStat.running si))
    ∧ (∀ (i j : Nat) (si sj : List String),
        s.callers[i]? = some (CallerStat.running si) →
        s.callers[j]? = some (CallerStat.running sj) → i = j)
    ∧ (∀ (i : Nat) (si : List String),
        s.callers[i]? = some (CallerStat.running si) → si = s.hist ++ [msg i])

/-- `LockInv` holds initially. -/
theorem lockInv_init (msg : Nat → String) (h0 : List String) (n : Nat) :
    LockInv msg (initLockState h0 n) := by
  have hrep : ∀ (i : Nat) (si : List String),
      (initLockState h0 n).callers[i]? ≠ some (CallerStat.running si) := by
    intro i si h
    simp only [initLockState, List.getElem?_replicate] at h
    split at h <;> simp_all
  refine ⟨fun _ => hrep, ?_, ?_⟩
  · intro i j si sj hi _
    exact absurd hi (hrep i si)
  · intro i si hi
    exact absurd hi (hrep i si)

/-- `LockInv` is preserved by every step. -/
theorem lockInv_step {msg resp : Nat → String} {s t : LockState}
    (hstep : AgentStep msg resp s t) (hinv : LockInv msg s) : LockInv msg t := by
  obtain ⟨inv1, inv2, inv3⟩ := hinv
  cases hstep with
  | acquire i h hl =>
    refine ⟨?_, ?_, ?_⟩
    · intro hfalse
      simp at hfalse
    · intro a b sa sb ha hb
      simp only [List.getElem?_set] at ha hb
      by_cases hia : i = a <;> by_cases hib : i = b
      · omega
      · rw [if_neg hib] at hb
        exact absurd hb (inv1 hl b sb)
      · rw [if_neg hia] at ha
        exact absurd ha (inv1 hl a sa)
      · rw [if_neg hia] at ha
        exact absurd ha (inv1 hl a sa)
    · intro a sa ha
      simp only [List.getElem?_set] at ha
      by_cases hia : i = a
      · subst hia
        rw [if_pos rfl] at ha
        split at ha
        · cases ha
          rfl
        · cases ha
      · rw [if_neg hia] at ha
        exact absurd ha (inv1 hl a sa)
  | finish i snap h =>
    have hnorun : ∀ (a : Nat) (sa : List String),
        (s.callers.set i CallerStat.finished)[a]? ≠ some (CallerStat.running sa) := by
      intro a sa ha
      simp only [List.getElem?_set] at ha
      by_cases hia : i = a
      · subst hia
        rw [if_pos rfl] at ha
        split at ha <;> cases ha
      · rw [if_neg hia] at ha
        exact hia (inv2 i a snap sa h ha)
    refine ⟨fun _ => hnorun, ?_, ?_⟩
    · intro a b sa sb ha _
      exact absurd ha (hnorun a sa)
    · intro a sa ha
      exact absurd ha (hnorun a sa)

/-- `LockInv` holds in every reachable state. -/
theorem lockInv_reach {msg resp : Nat → String} {h0 : List String} {n : Nat}
    {s : LockState} (hr : AgentReach msg resp (initLockState h0 n) s) :
    LockInv msg s := by
  induction hr with
  | refl => exact lockInv_init msg h0 n
  | tail _ hstep ih => exact lockInv_step hstep ih

/-- C2: in every state reachable from `n` concurrent `_invoke` callers,
at most one caller is mid-invocation against the shared history (the
`async with _lock` of `agent.py:267`), and the message list a
mid-invocation caller read at its start is the history left by the
previous invocation's return plus its own new user turn
(`agent.py:277`). -/
theorem invoke_single_flight (msg resp : Nat → String) (h0 : List String)
    (n : Nat) (s : LockState)
    (hr : AgentReach msg resp (initLockState h0 n) s) :
    (∀ (i j : Nat) (si sj : List String),
        s.callers[i]? = some (CallerStat.running si) →
        s.callers[j]? = some (CallerStat.running sj) → i = j)
    ∧ (∀ (i : Nat) (si : List String),
        s.callers[i]? = some (CallerStat.running si) →
        si = s.hist ++ [msg i]) :=
  ⟨(lockInv_reach hr).2.1, (lockInv_reach hr).2.2⟩

/-- Witness for C2: the state after one caller of two acquired the
lock. -/
theorem invoke_single_flight_witness :
    (∀ (i j : Nat) (si sj : List String),
        ({ lock := true, hist := ["old"],
            callers := (List.replicate 2 CallerStat.waiting).set 0
              (CallerStat.running (["old"] ++ [(fun _ => "hi") 0])) } :
          LockState).callers[i]? = some (CallerStat.running si) →
        ({ lock := true, hist := ["old"],
            callers := (List.replicate 2 CallerStat.waiting).set 0
              (CallerStat.running (["old"] ++ [(fun _ => "hi") 0])) } :
          LockState).callers[j]? = some (CallerStat.running sj) → i = j)
    ∧ (∀ (i : Nat) (si : List String),
        ({ lock := true, hist := ["old"],
            callers := (List.replicate 2 CallerStat.waiting).set 0
              (CallerStat.running (["old"] ++ [(fun _ => "hi") 0])) } :
          LockState).callers[i]? = some (CallerStat.running si) →
        si = ["old"] ++ [(fun _ => "hi") i]) :=
  invoke_single_flight (fun _ => "hi") (fun _ => "r") ["old"] 2 _
    (AgentReach.tail (AgentReach.refl _)
      (AgentStep.acquire (initLockState ["old"] 2) 0 (by decide) rfl))

/-- Arrival order extended to a partial tie on equal items; antisymmetric,
which is what identifies the two filtered lists below. -/
def seqLtEq (a b : QItem) : Prop := a.seq < b.seq ∨ a = b

instance : IsAntisymm QItem seqLtEq where
  antisymm a b h1 h2 := by
    rcases h1 with h1 | h1
    · rcases h2 with h2 | h2
      · omega
      · exact h2.symm
    · exact h1

/-- Restricting the pop order to one source whose items share a priority
gives those items back in arrival order. -/
theorem filter_drainOrder (S : String) (p : Nat) (l : List QItem)
    (hseq : l.Pairwise (fun a b => a.seq < b.seq))
    (hpri : ∀ it ∈ l, it.src = S → it.pri = p) :
    (drainOrder l).filter (fun it => it.src = S) =
      l.filter (fun it => it.src = S) := by
  have hperm : ((drainOrder l).filter (fun it => it.src = S)).Perm
      (l.filter (fun it => it.src = S)) :=
    (List.perm_insertionSort qLe l).filter _
  have hs2 : (l.filter (fun it => it.src = S)).Pairwise seqLtEq :=
    (hseq.filter _).imp (fun h => Or.inl h)
  have hsorted : (drainOrder l).Pairwise qLe := List.sorted_insertionSort qLe l
  have hne : (drainOrder l).Pairwise (fun a b => a.seq ≠ b.seq) := by
    have h1 : l.Pairwise (fun a b => a.seq ≠ b.seq) :=
      hseq.imp (fun h => Nat.ne_of_lt h)
    exact ((List.perm_insertionSort qLe l).pairwise_iff
      (fun h => Ne.symm h)).mpr h1
  have hfcomb := (hsorted.and hne).filter (fun it => decide (it.src = S))
  have hs1 : ((drainOrder l).filter (fun it => it.src = S)).Pairwise seqLtEq := by
    refine hfcomb.imp_of_mem ?_
    intro a b ha hb hab
    have ha' := List.mem_filter.mp ha
    have hb' := List.mem_filter.mp hb
    have haL : a ∈ l := ((List.perm_insertionSort qLe l).mem_iff).mp ha'.1
    have hbL : b ∈ l := ((List.perm_insertionSort qLe l).mem_iff).mp hb'.1
    have hpa : a.pri = p := hpri a haL (of_decide_eq_true ha'.2)
    have hpb : b.pri = p := hpri b hbL (of_decide_eq_true hb'.2)
    rcases hab.1 with hlt | ⟨_, hle⟩
    · exfalso; omega
    · exact Or.inl (lt_of_le_of_ne hle hab.2)
  exact List.eq_of_perm_of_sorted hperm hs1 hs2

/-- Membership in the first-seen fold of `_batch`. -/
theorem mem_foldl_batchSources (l : List QItem) :
    ∀ (acc : List String) (a : String),
      (a ∈ l.foldl
          (fun acc it => if it.src ∈ acc then acc else acc ++ [it.src]) acc) ↔
        a ∈ acc ∨ ∃ it ∈ l, it.src = a := by
  induction l with
  | nil => intro acc a; simp
  | cons x xs ih =>
    intro acc a
    simp only [List.foldl_cons]
    by_cases hx : x.src ∈ acc
    · rw [if_pos hx, ih]
      constructor
      · rintro (h | ⟨it, hit, he⟩)
        · exact Or.inl h
        · exact Or.inr ⟨it, List.mem_cons_of_mem _ hit, he⟩
      · rintro (h | ⟨it, hit, he⟩)
        · exact Or.inl h
        · rcases List.mem_cons.mp hit with rfl | hit'
          · exact Or.inl (he ▸ hx)
          · exact Or.inr ⟨it, hit', he⟩
    · rw [if_neg hx, ih]
      constructor
      · rintro (h | ⟨it, hit, he⟩)
        · rcases List.mem_append.mp h with h' | h'
          · exact Or.inl h'
          · exact Or.inr ⟨x, List.mem_cons_self _ _,
              (List.mem_singleton.mp h').symm⟩
        · exact Or.inr ⟨it, List.mem_cons_of_mem _ hit, he⟩
      · rintro (h | ⟨it, hit, he⟩)
        · exact Or.inl (List.mem_append.mpr (Or.inl h))
        · rcases List.mem_cons.mp hit with rfl | hit'
          · exact Or.inl (List.mem_append.mpr (Or.inr (by simp [he])))
          · exact Or.inr ⟨it, hit', he⟩

/-- The first-seen fold of `_batch` keeps the key list duplicate-free. -/
theorem nodup_foldl_batchSources (l : List QItem) :
    ∀ acc : List String, acc.Nodup →
      (l.foldl
        (fun acc it => if it.src ∈ acc then acc else acc ++ [it.src])
        acc).Nodup := by
  induction l with
  | nil => intro acc h; simpa using h
  | cons x xs ih =>
    intro acc h
    simp only [List.foldl_cons]
    by_cases hx : x.src ∈ acc
    · rw [if_pos hx]; exact ih acc h
    · rw [if_neg hx]
      exact ih _ (by simp [List.nodup_append, h, hx])

/-- `_batch` group keys are duplicate-free. -/
theorem nodup_batchSources (items : List QItem) : (batchSources items).Nodup :=
  nodup_foldl_batchSources items [] (by simp)

/-- A group key exists iff some item carries it. -/
theorem mem_batchSources {items : List QItem} {a : String} :
    a ∈ batchSources items ↔ ∃ it ∈ items, it.src = a := by
  unfold batchSources
  rw [mem_foldl_batchSources]
  simp

/-- Filtering a duplicate-free list for one value. -/
theorem filter_eq_of_nodup {L : List String} (h : L.Nodup) (S : String) :
    L.filter (fun s => s = S) = if S ∈ L then [S] else [] := by
  induction L with
  | nil => simp
  | cons a L ih =>
    rcases List.nodup_cons.mp h with ⟨ha, hL⟩
    by_cases haS : a = S
    · subst haS
      simp [List.filter_cons, ih hL, ha]
    · have hSa : S ≠ a := fun h' => haS h'.symm
      simp [List.filter_cons, haS, ih hL, hSa]

/-- The messages that source `S` contributes to one batched drain equal
the `S`-items of the drained list in list order. -/
theorem batch_filter_msgs (items : List QItem) (S : String) :
    ((batch items).filter (fun g => g.src = S)).flatMap (fun g => g.msgs) =
      (items.filter (fun it => it.src = S)).map (fun it => it.msg) := by
  unfold batch
  rw [List.filter_map]
  have hcomp : ((fun g : BatchGroup => decide (g.src = S)) ∘ mkGroup items) =
      fun s => decide (s = S) := funext fun s => rfl
  rw [hcomp, filter_eq_of_nodup (nodup_batchSources items) S]
  by_cases hS : S ∈ batchSources items
  · rw [if_pos hS]
    simp [List.flatMap, mkGroup]
  · rw [if_neg hS]
    have hnil : items.filter (fun it => it.src = S) = [] := by
      rw [List.filter_eq_nil_iff]
      intro it hit hp
      exact hS (mem_batchSources.mpr ⟨it, hit, of_decide_eq_true hp⟩)
    simp [hnil]

/-- C4 (counterexample): two messages of one source in one drain, the
later one enqueued at priority `SCHEDULED` and the earlier at `USER`;
the priority queue delivers the later-enqueued message first, so
delivery order differs from enqueue order. -/
theorem per_source_order_cex :
    deliveredFor "g"
        [[{ pri := 1, seq := 1, src := "g", msg := "m1", reply := 0,
            blocks := [] },
          { pri := 0, seq := 2, src := "g", msg := "m2", reply := 0,
            blocks := [] }]] = ["m2", "m1"]
    ∧ enqueuedFor "g"
        [[{ pri := 1, seq := 1, src := "g", msg := "m1", reply := 0,
            blocks := [] },
          { pri := 0, seq := 2, src := "g", msg := "m2", reply := 0,
            blocks := [] }]] = ["m1", "m2"]
    ∧ (["m2", "m1"] : List String) ≠ ["m1", "m2"] := by
  decide

/-- C4 (amended): per `source_key`, among messages of equal priority,
the texts passed to the LLM in turns originating from `S` over any run
equal their enqueue order; mixing priorities within a source can deliver
a later-enqueued lower-priority-value message first. -/
theorem per_source_arrival_order (S : String) (p : Nat)
    (run : List (List QItem))
    (hseq : run.flatten.Pairwise (fun a b => a.seq < b.seq))
    (hpri : ∀ it ∈ run.flatten, it.src = S → it.pri = p) :
    deliveredFor S run = enqueuedFor S run := by
  unfold deliveredFor enqueuedFor
  have hdr : ∀ d ∈ run,
      ((batch (drainOrder d)).filter (fun g => g.src = S)).flatMap
          (fun g => g.msgs) =
        (d.filter (fun it => it.src = S)).map (fun it => it.msg) := by
    intro d hd
    rw [batch_filter_msgs]
    have hsub : d.Sublist run.flatten := List.sublist_flatten_of_mem hd
    have h1 : d.Pairwise (fun a b => a.seq < b.seq) :=
      List.Pairwise.sublist hsub hseq
    congr 1
    exact filter_drainOrder S p d h1
      (fun it hit hs => hpri it (List.mem_flatten.mpr ⟨d, hd, hit⟩) hs)
  rw [List.map_congr_left hdr]
  rw [List.filter_flatten, List.map_flatten, List.map_map]
  rfl

/-- Witness for C4 (amended): a two-drain run where all `"g"` messages
share priority `USER` while another source interleaves at priority
`SCHEDULED`. -/
theorem per_source_arrival_order_witness :
    deliveredFor "g"
        [[{ pri := 1, seq := 1, src := "g", msg := "m1", reply := 0,
            blocks := [] },
          { pri := 0, seq := 2, src := "h", msg := "x", reply := 1,
            blocks := [] },
          { pri := 1, seq := 3, src := "g", msg := "m2", reply := 2,
            blocks := [] }],
         [{ pri := 1, seq := 4, src := "g", msg := "m3", reply := 3,
            blocks := [] }]] =
      enqueuedFor "g"
        [[{ pri := 1, seq := 1, src := "g", msg := "m1", reply := 0,
            blocks := [] },
          { pri := 0, seq := 2, src := "h", msg := "x", reply := 1,
            blocks := [] },
          { pri := 1, seq := 3, src := "g", msg := "m2", reply := 2,
            blocks := [] }],
         [{ pri := 1, seq := 4, src := "g", msg := "m3", reply := 3,
            blocks := [] }]] :=
  per_source_arrival_order "g" 1 _ (by decide) (by decide)

/-- Items of one source at one priority enqueued in arrival order are
already in pop order. -/
theorem sorted_of_uniform (p : Nat) (l : List QItem)
    (hpri : ∀ it ∈ l, it.pri = p)
    (hseq : l.Pairwise (fun a b => a.seq < b.seq)) :
    l.Pairwise qLe := by
  refine hseq.imp_of_mem ?_
  intro a b ha hb hab
  exact Or.inr ⟨by rw [hpri a ha, hpri b hb], Nat.le_of_lt hab⟩

/-- The first-seen fold is stationary once the only key is present. -/
theorem batchSources_const_aux (S : String) :
    ∀ (l : List QItem) (acc : List String), (∀ it ∈ l, it.src = S) →
      S ∈ acc →
      l.foldl (fun acc it => if it.src ∈ acc then acc else acc ++ [it.src])
        acc = acc := by
  intro l
  induction l with
  | nil => intro acc _ _; rfl
  | cons x xs ih =>
    intro acc hall hS
    simp only [List.foldl_cons]
    have hx : x.src = S := hall x (List.mem_cons_self _ _)
    rw [if_pos (by rw [hx]; exact hS)]
    exact ih acc (fun it hit => hall it (List.mem_cons_of_mem _ hit)) hS

/-- A non-empty drain whose items share one source has exactly that
group key. -/
theorem batchSources_const (S : String) (l : List QItem) (hne : l ≠ [])
    (hall : ∀ it ∈ l, it.src = S) : batchSources l = [S] := by
  cases l with
  | nil => exact absurd rfl hne
  | cons x xs =>
    unfold batchSources
    simp only [List.foldl_cons]
    have hx : x.src = S := hall x (List.mem_cons_self _ _)
    rw [if_neg (List.not_mem_nil _), List.nil_append, hx]
    exact batchSources_const_aux S xs [S]
      (fun it hit => hall it (List.mem_cons_of_mem _ hit))
      (List.mem_singleton.mpr rfl)

/-- C3 (counterexample): two items of one source enqueued while the
worker is busy, arrival sequence 1 then 2, but the later one at
priority `SCHEDULED`; the single invocation's text joins them in pop
order `"m2\nm1"`, not arrival order, and the `reply_fns[-1]` callback
is the first-enqueued item's, not the last-enqueued one's. -/
theorem drain_coalesces_cex :
    drainOnce
        [{ pri := 1, seq := 1, src := "g", msg := "m1", reply := 5,
           blocks := [] },
         { pri := 0, seq := 2, src := "g", msg := "m2", reply := 6,
           blocks := [] }] =
      [{ source := "g", text := "m2\nm1", blocks := [],
         replyTarget := some 5 }]
    ∧ ("m2\nm1" : String) ≠ "m1\nm2"
    ∧ (5 : Nat) ≠ 6 := by
  decide

/-- C3 (amended): `K` items sharing one `source_key` and one priority,
with strictly increasing arrival sequence, are coalesced by the next
drain into a single LLM invocation whose text is their display texts
joined by newline in arrival order, every emitted segment being
delivered through the group's last `reply_fn`. -/
theorem drain_coalesces (S : String) (p : Nat) (l : List QItem)
    (hne : l ≠ []) (hsrc : ∀ it ∈ l, it.src = S)
    (hpri : ∀ it ∈ l, it.pri = p)
    (hseq : l.Pairwise (fun a b => a.seq < b.seq)) :
    drainOnce l =
      [{ source := S, text := String.intercalate "\n" (l.map (·.msg)),
         blocks := (l.map (·.blocks)).flatten,
         replyTarget := (l.map (·.reply)).getLast? }] := by
  unfold drainOnce
  rw [show drainOrder l = l from
    List.Sorted.insertionSort_eq (sorted_of_uniform p l hpri hseq)]
  unfold batch
  rw [batchSources_const S l hne hsrc]
  have hfilter : l.filter (fun it => it.src = S) = l :=
    List.filter_eq_self.mpr (fun a ha => decide_eq_true (hsrc a ha))
  simp [mkGroup, hfilter]

/-- Witness for C3 (amended): the two-message burst of the spec's
concrete scenario, same source, both at priority `USER`. -/
theorem drain_coalesces_witness :
    drainOnce
        [{ pri := 1, seq := 3, src := "g", msg := "你好", reply := 3,
           blocks := [] },
         { pri := 1, seq := 4, src := "g", msg := "在吗", reply := 4,
           blocks := [] }] =
      [{ source := "g", text := "你好\n在吗", blocks := [],
         replyTarget := some 4 }] := by
  have h := drain_coalesces "g" 1
    [{ pri := 1, seq := 3, src := "g", msg := "你好", reply := 3,
       blocks := [] },
     { pri := 1, seq := 4, src := "g", msg := "在吗", reply := 4,
       blocks := [] }]
    (by decide) (by decide) (by decide) (by decide)
  rw [h]
  decide

/-- C6 (counterexample): a `user_message` invocation that passes through
`summarize` ends with `current_token_usage = 9100`, the final assistant
turn's `total_tokens`, because `agent.py:333-337` overwrites the
summarize update `9000 − 100 + 10 = 8910` after the graph returns. -/
theorem invoke_summarize_usage_cex :
    agent_invoke .user_message 8000
        { resps := [⟨"a1", [], some ⟨9000, 100, 9100⟩⟩],
          toolOuts := [], summaryText := "SUM",
          summaryUsage := some ⟨100, 10, 110⟩,
          now := "T", approx := fun _ => 0 }
        [Msg.human "h0", Msg.ai "a0" [] (some ⟨10, 5, 15⟩)] "h1" 9000 1 =
      some ([Msg.system (wrapSummary "T" "SUM"), Msg.human "h1",
          Msg.ai "a1" [] (some ⟨9000, 100, 9100⟩)],
        9100)
    ∧ (9100 : Int) ≠ 9000 - 100 + 10 := by
  constructor
  · rfl
  · decide

/-- C6 (amended): a `session_timeout` invocation (the `summarize_all`
node) leaves `current_token_usage = previous − summary.input_tokens +
summary.output_tokens` (unchanged without usage metadata); but for a
`user_message` invocation that routes through `summarize`, the summarize
update is overwritten after the graph with the final assistant message's
`total_tokens` (or its approximation). -/
theorem invoke_summarize_usage (oracle : InvokeOracle) (pre : List Msg)
    (message t : String) (u : Option Usage) (prev : Int)
    (limit fuel i : Nat) :
    (∀ (prev' : Int) (pre' : List Msg) (m' : String) (f' l' : Nat),
      agent_invoke .session_timeout l' oracle pre' m' prev' f' =
        some ([Msg.system (wrapSummary oracle.now oracle.summaryText)],
          match oracle.summaryUsage with
          | some v => (v.output : Int) + prev' - (v.input : Int)
          | none => prev'))
    ∧ (oracle.resps = [{ text := t, toolCalls := [], usage := u }] →
      inputOrApprox u (oracle.approx
          ((pre ++ [Msg.human message]) ++ [Msg.ai t [] u])) > limit →
      lastAnchorIdx ((pre ++ [Msg.human message]) ++ [Msg.ai t [] u]) =
        some i →
      0 < i →
      i ≤ (pre ++ [Msg.human message]).length →
      safe_for_summary
          (((pre ++ [Msg.human message]) ++ [Msg.ai t [] u]).take i) ≠ [] →
      agent_invoke .user_message limit oracle pre message prev (fuel + 1) =
        some (Msg.system (wrapSummary oracle.now oracle.summaryText) ::
            ((pre ++ [Msg.human message]).drop i ++ [Msg.ai t [] u]),
          (totalOrApprox u (oracle.approx
            (Msg.system (wrapSummary oracle.now oracle.summaryText) ::
              ((pre ++ [Msg.human message]).drop i ++ [Msg.ai t [] u]))) :
            Int))) := by
  constructor
  · intro prev' pre' m' f' l'
    rfl
  · intro hresp hin hanchor hpos hile hsafe
    have hdrop : ((pre ++ [Msg.human message]) ++ [Msg.ai t [] u]).drop i =
        (pre ++ [Msg.human message]).drop i ++ [Msg.ai t [] u] :=
      List.drop_append_of_le_length hile
    unfold agent_invoke
    simp only [graphLoop, hresp]
    rw [if_neg (by simp)]
    rw [if_pos hin]
    unfold summarize_node
    rw [hanchor]
    simp only [hpos, if_pos]
    rw [if_neg hsafe]
    simp only [Option.getD_some, hdrop]
    rw [show (Msg.system (wrapSummary oracle.now oracle.summaryText) ::
        ((pre ++ [Msg.human message]).drop i ++ [Msg.ai t [] u])).reverse =
      Msg.ai t [] u :: (((pre ++ [Msg.human message]).drop i).reverse ++
        [Msg.system (wrapSummary oracle.now oracle.summaryText)]) from by
        simp]
    rw [List.find?_cons_of_pos _ (by rfl)]

/-- Witness for C6 (amended): the session-timeout summarization updates
the usage to `200 − 80 + 20 = 140`, and the user-message run through
`summarize` ends at the final assistant total `9100`. -/
theorem invoke_summarize_usage_witness :
    agent_invoke .session_timeout 8000
        { resps := [⟨"a1", [], some ⟨9000, 100, 9100⟩⟩], toolOuts := [],
          summaryText := "SUM", summaryUsage := some ⟨80, 20, 100⟩,
          now := "T", approx := fun _ => 0 }
        [Msg.human "hello"] "" 200 1 =
      some ([Msg.system (wrapSummary "T" "SUM")], 140)
    ∧ agent_invoke .user_message 8000
        { resps := [⟨"a1", [], some ⟨9000, 100, 9100⟩⟩], toolOuts := [],
          summaryText := "SUM", summaryUsage := some ⟨100, 10, 110⟩,
          now := "T", approx := fun _ => 0 }
        [Msg.human "h0", Msg.ai "a0" [] (some ⟨10, 5, 15⟩)] "h1" 9000 1 =
      some ([Msg.system (wrapSummary "T" "SUM"), Msg.human "h1",
          Msg.ai "a1" [] (some ⟨9000, 100, 9100⟩)],
        9100) :=
  ⟨((invoke_summarize_usage
      { resps := [⟨"a1", [], some ⟨9000, 100, 9100⟩⟩], toolOuts := [],
        summaryText := "SUM", summaryUsage := some ⟨80, 20, 100⟩,
        now := "T", approx := fun _ => 0 }
      [] "" "" none 0 0 0 0).1 200 [Msg.human "hello"] "" 1 8000).trans
    (by decide),
   ((invoke_summarize_usage
      { resps := [⟨"a1", [], some ⟨9000, 100, 9100⟩⟩], toolOuts := [],
        summaryText := "SUM", summaryUsage := some ⟨100, 10, 110⟩,
        now := "T", approx := fun _ => 0 }
      [Msg.human "h0", Msg.ai "a0" [] (some ⟨10, 5, 15⟩)] "h1" "a1"
      (some ⟨9000, 100, 9100⟩) 9000 8000 0 2).2 rfl (by decide) (by decide)
      (by decide) (by decide) (by decide)).trans (by decide)⟩
